import Mathlib

/-
Verification of the luatemplate template compiler against its specification.

The development shallowly embeds the C sources:
  - lt.c (the directive scanner `reader`, the orchestrator `process_file`,
    the escape tables and `lt_escape`),
  - luatemplate.c (the render context, `render_file`, `render_clear`,
    the embedded Lua chunks `render_block` and `render_template`).
Buffers (buffer.c is not part of the given sources) are modelled as
`List Char` with append; the external Lua execution engine is modelled
from the spec where needed (each such definition is marked
`Modelled from the spec:` in its doc comment).

The model corresponds to the non-debug build (LT_DEBUG undefined): the
line-map bookkeeping is purely additive diagnostics and never changes
the generated code.
-/

namespace LT

/-- Escape modes, from `enum lt_escapes` in luatemplate.h. -/
inductive LtEscapes where
  | e_none
  | e_html
  | e_xml
  | e_latex
  | e_url
deriving DecidableEq

/-- The html escape table from lt.c (`html_escape`). -/
def html_escape : List (Char × String) :=
  [('&', "&amp;"), ('<', "&lt;"), ('>', "&gt;"), ('"', "&#034;"), ('\'', "&#039;")]

/-- The xml escape table from lt.c (`xml_escape`). -/
def xml_escape : List (Char × String) :=
  [('&', "&amp;"), ('<', "&lt;"), ('>', "&gt;"), ('"', "&quot;"), ('\'', "&apos;")]

/-- The latex escape table from lt.c (`latex_escape`). -/
def latex_escape : List (Char × String) :=
  [('&', "\\&"), ('$', "\\$"), ('\\', "$\\backslash$"), ('_', "\\_"),
   ('<', "$<$"), ('>', "$>$"), ('%', "\\%"), ('#', "\\#"), ('^', "$^$")]

/-- The url escape table from lt.c (`url_escape`).  The brace and backtick
characters are written via `Char.ofNat` (123 is the opening brace, 125 the
closing brace, 96 the backtick). -/
def url_escape : List (Char × String) :=
  [(' ', "%20"), ('<', "%3C"), ('>', "%3E"), ('#', "%23"), ('%', "%25"),
   (Char.ofNat 123, "%7B"), (Char.ofNat 125, "%7D"), ('|', "%7C"), ('\\', "%5C"),
   ('^', "%5E"), ('~', "%7E"), ('[', "%5B"), (']', "%5D"), (Char.ofNat 96, "%60"),
   (';', "%3B"), ('/', "%2F"), ('?', "%3F"), (':', "%3A"), ('@', "%40"),
   ('=', "%3D"), ('&', "%26"), ('$', "%24")]

/-- The scan loop inside `lt_escape`: walk the table until the terminator
and return the first matching substitution, or no substitution. -/
def lookupEsc : List (Char × String) → Char → Option String
  | [], _ => none
  | (e, s) :: rest, c => if e = c then some s else lookupEsc rest c

/-- `lt_escape` from lt.c: select the table for the mode and scan it;
the default case (e_none) returns no substitution. -/
def lt_escape (escape : LtEscapes) (c : Char) : Option String :=
  match escape with
  | .e_html => lookupEsc html_escape c
  | .e_xml => lookupEsc xml_escape c
  | .e_url => lookupEsc url_escape c
  | .e_latex => lookupEsc latex_escape c
  | .e_none => none

/-! Spec-side escape tables, written from the spec text (section 6):
"html `&amp;` etc.; xml same but quot/apos; latex ...; url escapes space and
the listed reserved set to %XX".  These are the refinement counterparts to
the code tables above. -/

/-- Spec table for html mode. -/
def spec_html : List (Char × String) :=
  [('&', "&amp;"), ('<', "&lt;"), ('>', "&gt;"), ('"', "&#034;"), ('\'', "&#039;")]

/-- Spec table for xml mode (same as html but quot/apos). -/
def spec_xml : List (Char × String) :=
  [('&', "&amp;"), ('<', "&lt;"), ('>', "&gt;"), ('"', "&quot;"), ('\'', "&apos;")]

/-- Spec table for latex mode. -/
def spec_latex : List (Char × String) :=
  [('&', "\\&"), ('$', "\\$"), ('\\', "$\\backslash$"), ('_', "\\_"),
   ('<', "$<$"), ('>', "$>$"), ('%', "\\%"), ('#', "\\#"), ('^', "$^$")]

/-- Spec reserved set for url mode: the space plus the listed reserved
characters (brace and backtick written via `Char.ofNat`). -/
def urlReserved : List Char :=
  [' ', '<', '>', '#', '%', Char.ofNat 123, Char.ofNat 125, '|', '\\', '^', '~',
   '[', ']', Char.ofNat 96, ';', '/', '?', ':', '@', '=', '&', '$']

/-- An uppercase hexadecimal digit. -/
def hexDigit (n : Nat) : Char :=
  if n < 10 then Char.ofNat (48 + n) else Char.ofNat (55 + n)

/-- The `%XX` substitution of the spec's url table: a percent sign followed
by the two uppercase hex digits of the character code. -/
def pctHex (c : Char) : String :=
  String.mk ['%', hexDigit (c.toNat / 16), hexDigit (c.toNat % 16)]

/-- The spec's escape lookup, assembled from the spec-side tables. -/
def specEscape (m : LtEscapes) (c : Char) : Option String :=
  match m with
  | .e_html => lookupEsc spec_html c
  | .e_xml => lookupEsc spec_xml c
  | .e_latex => lookupEsc spec_latex c
  | .e_url => if c ∈ urlReserved then some (pctHex c) else none
  | .e_none => none

/-! ## The directive scanner (`reader` in lt.c)

The scanner consumes the template source (a `List Char`; the C code walks a
NUL-terminated buffer) and produces two code buffers (`body` and `blocks`),
the list of recorded dependencies (`includes`, built by inserting at the
head of a singly linked list, hence in reverse discovery order), and its
final state.  All C string emissions are reproduced verbatim; braces inside
string literals are written with the escapes `\x7b` and `\x7d`. -/

/-- Scanner states, from `enum lt_states` in lt.c. -/
inductive LtStates where
  | s_startup
  | s_initial
  | s_output
  | s_code
  | s_expression
  | s_instruction
  | s_terminate
  | s_error
deriving DecidableEq

/-- C `isspace` on the ASCII whitespace characters (11 is vertical tab,
12 is form feed). -/
def isspace (c : Char) : Bool :=
  c = ' ' || c = '\t' || c = '\n' || c = Char.ofNat 11 || c = Char.ofNat 12 || c = '\r'

/-- `strncmp(p, pre, |pre|) == 0`, i.e. `pre` is a prefix of `p`. -/
def hasPfx (pre p : List Char) : Bool :=
  pre.isPrefixOf p

/-- `while (isspace(*p)) p++`. -/
def skipSpaces : List Char → List Char
  | [] => []
  | c :: r => if isspace c then skipSpaces r else c :: r

/-- The bare-name scan shared by include/block/extends:
`while (*p && !isspace(*p) && !(*p == '%' && *(p+1) == '>')) fnam[n++] = *p++`.
The C code additionally truncates at MAXPATHLEN characters; the model leaves
the name unbounded. -/
def takeBare : List Char → List Char × List Char
  | [] => ([], [])
  | c :: r =>
    if isspace c then ([], c :: r)
    else if c = '%' && r.head? = some '>' then ([], c :: r)
    else
      let t := takeBare r
      (c :: t.1, t.2)

/-- The quoted-name scan: `while (*p && *p != '"' && *p != '\'') ...`
(the closing quote is not consumed; the skip to `%>` passes over it). -/
def takeQuoted : List Char → List Char × List Char
  | [] => ([], [])
  | c :: r =>
    if c = '"' || c = '\'' then ([], c :: r)
    else
      let t := takeQuoted r
      (c :: t.1, t.2)

/-- Name parsing for the instruction keywords: skip spaces, then either a
quoted or a bare token. -/
def parseName (p : List Char) : List Char × List Char :=
  match skipSpaces p with
  | '"' :: r => takeQuoted r
  | '\'' :: r => takeQuoted r
  | q => takeBare q

/-- `while (*p && strncmp(p, "%>", 2)) p++; if (*p) p += 2;`. -/
def skipToClose : List Char → List Char
  | [] => []
  | c :: r => if c = '%' && r.head? = some '>' then r.tail else skipToClose r

/-- The format-token scan in expression mode:
`while (*p && !isspace((int)*p)) buf_addchar(b, *p++)`. -/
def takeFmt : List Char → List Char × List Char
  | [] => ([], [])
  | c :: r =>
    if isspace c then ([], c :: r)
    else
      let t := takeFmt r
      (c :: t.1, t.2)

/-- The scanner's mutable state: the C locals of `reader` (`state`,
`escape`, `extends` (here `exts`), `block`, `output`, `cb`, the current
buffer pointer `b` (here `inBlocks`), the name buffer `fnam`) together with
the two code buffers and the recorded include list. -/
structure LtScan where
  state : LtStates
  escape : LtEscapes
  exts : Bool
  block : Bool
  output : Bool
  cb : Nat
  inBlocks : Bool
  fnam : List Char
  body : List Char
  blocks : List Char
  includes : List String
deriving DecidableEq

/-- `buf_addstring(b, s)`: append to the buffer `b` currently points to. -/
def bufAdd (st : LtScan) (s : List Char) : LtScan :=
  if st.inBlocks then { st with blocks := st.blocks ++ s }
  else { st with body := st.body ++ s }

/-- The expression opening emitted after `<%=`: the optional mode tag read
immediately after the `=` (no whitespace skip happens first), the
`print(escape_*(` opening with its unclosed-parenthesis count, and the
optional `string.format` wrapper for a `%`-led token. -/
def exprOpen (st : LtScan) (p : List Char) : LtScan × List Char :=
  let mode :=
    if hasPfx ("html").data p then (LtEscapes.e_html, p.drop 4)
    else if hasPfx ("xml").data p then (LtEscapes.e_xml, p.drop 3)
    else if hasPfx ("latex").data p then (LtEscapes.e_latex, p.drop 5)
    else if hasPfx ("url").data p then (LtEscapes.e_url, p.drop 3)
    else if hasPfx ("none").data p then (LtEscapes.e_none, p.drop 4)
    else (st.escape, p)
  let st :=
    match mode.1 with
    | .e_html => { bufAdd st ("print(escape_html(").data with cb := st.cb + 1 }
    | .e_xml => { bufAdd st ("print(escape_xml(").data with cb := st.cb + 1 }
    | .e_url => { bufAdd st ("print(escape_url(").data with cb := st.cb + 1 }
    | .e_latex => { bufAdd st ("print(escape_latex(").data with cb := st.cb + 1 }
    | .e_none => bufAdd st ("print(").data
  match mode.2 with
  | '%' :: r =>
    let t := takeFmt ('%' :: r)
    ({ bufAdd (bufAdd (bufAdd st ("string.format([[").data) t.1) ("]], ").data with
        cb := st.cb + 1 }, t.2)
  | q => (st, q)

/-- One execution of the `s_code` switch case: copy a character, or close
the region on `%>`.  On an exhausted input the C code would copy the NUL
terminator and run past the buffer (undefined behavior); the model leaves
the state unchanged there. -/
def codeStep (st : LtScan) (p : List Char) : LtScan × List Char :=
  match p with
  | '%' :: '>' :: r => ({ bufAdd st ("\n").data with state := .s_initial }, r)
  | c :: r => (bufAdd st [c], r)
  | [] => (st, [])

/-- One execution of the `s_expression` switch case: copy a character, or on
`%>` emit the `cb` closing parentheses followed by `)` and a newline. -/
def exprStep (st : LtScan) (p : List Char) : LtScan × List Char :=
  match p with
  | '%' :: '>' :: r =>
    ({ bufAdd st (List.replicate st.cb ')' ++ (")\n").data) with
        state := .s_initial, cb := 0 }, r)
  | c :: r => (bufAdd st [c], r)
  | [] => (st, [])

/-- One execution of the `s_output` switch case (also reached by fallthrough
from `s_initial`): literal characters are copied; `<%` closes a pending
literal, then dispatches on `=` (expression), `!` (instruction) or raw code;
after the dispatch whitespace is skipped and, for raw code, the `s_code`
case runs in the same loop iteration. -/
def outputIter (st : LtScan) (p : List Char) : LtScan × List Char :=
  if !(hasPfx ("<%").data p) then
    match p with
    | c :: r => (bufAdd st [c], r)
    | [] => (st, [])
  else
    let st := if st.output then { bufAdd st ("]])\n").data with output := false } else st
    match p.drop 2 with
    | '=' :: r =>
      let s2 := exprOpen { st with state := .s_expression } r
      (s2.1, skipSpaces s2.2)
    | '!' :: r => ({ st with state := .s_instruction }, skipSpaces r)
    | q =>
      codeStep { st with state := .s_code } (skipSpaces q)

/-- One execution of the `s_instruction` switch case for template `tn`:
recognize `include`, `escape`, `block`, `endblock`, `extends` (in the C
order; unknown keywords are consumed with nothing emitted), then skip
everything up to and including the next `%>` and return to the initial
state. -/
def instrIter (tn : String) (st : LtScan) (p : List Char) : LtScan × List Char :=
  if hasPfx ("include").data p then
    let nm := parseName (p.drop 7)
    let st := bufAdd st (("render_template(_ENV, '").data ++ nm.1 ++ ("')\n").data)
    let nmS := String.mk nm.1
    let st :=
      if st.includes.contains nmS then st
      else { st with includes := nmS :: st.includes }
    ({ st with fnam := nm.1, state := .s_initial }, skipToClose nm.2)
  else if hasPfx ("escape").data p then
    let q := skipSpaces (p.drop 6)
    let s2 :=
      if hasPfx ("none").data q then ({ st with escape := LtEscapes.e_none }, q.drop 4)
      else if hasPfx ("html").data q then ({ st with escape := LtEscapes.e_html }, q.drop 4)
      else if hasPfx ("latex").data q then ({ st with escape := LtEscapes.e_latex }, q.drop 5)
      else if hasPfx ("url").data q then ({ st with escape := LtEscapes.e_url }, q.drop 3)
      else (st, q)
    ({ s2.1 with state := .s_initial }, skipToClose s2.2)
  else if hasPfx ("block").data p then
    let nm := parseName (p.drop 5)
    let st := { st with fnam := nm.1, inBlocks := true }
    let st :=
      if !st.exts then
        bufAdd st (("if template['").data ++ tn.data ++ ("'].blk['").data ++ nm.1 ++
          ("'] == nil then\n").data)
      else st
    let st := bufAdd st (("template['").data ++ tn.data ++ ("'].blk['").data ++ nm.1 ++
      ("'] = function (_ENV)\n").data)
    ({ st with block := true, state := .s_initial }, skipToClose nm.2)
  else if hasPfx ("endblock").data p then
    let r := p.drop 8
    let st := if !st.exts then bufAdd st ("end\n").data else st
    let st := bufAdd st ("end\n").data
    let st := { st with inBlocks := false }
    let st :=
      if !st.exts then
        bufAdd st (("render_block(_ENV, _t, '").data ++ st.fnam ++ ("')\n").data)
      else st
    ({ st with block := false, state := .s_initial }, skipToClose r)
  else if hasPfx ("extends").data p then
    let st := if !st.exts then bufAdd st ("end\n").data else st
    let nm := parseName (p.drop 7)
    let st := { st with fnam := nm.1 }
    let st := bufAdd st (("template['").data ++ tn.data ++ ("'].main = nil\n").data)
    let st := bufAdd st (("template['").data ++ tn.data ++ ("'].extends = '").data ++
      nm.1 ++ ("'\n").data)
    let st := { st with exts := true }
    let nmS := String.mk nm.1
    let st :=
      if st.includes.contains nmS then st
      else { st with includes := nmS :: st.includes }
    ({ st with state := .s_initial }, skipToClose nm.2)
  else
    ({ st with state := .s_initial }, skipToClose p)

/-- The scanner's main loop `while (*p) { switch (state) ... }`, fuelled:
each loop iteration consumes at least one character, so fuel
`|input| + 1` is always sufficient.  The `s_initial` case conditionally
opens a literal `print([[` and falls through to `s_output`. -/
def scanLoop (tn : String) : Nat → LtScan → List Char → LtScan
  | 0 => fun st _ => st
  | fuel + 1 => fun st p =>
    match p with
    | [] => st
    | c :: r =>
      match st.state with
      | .s_initial =>
        let st :=
          if !(hasPfx ("<%").data (c :: r)) && (!st.exts || st.block) then
            { bufAdd st ("print([[").data with output := true }
          else st
        let s2 := outputIter { st with state := .s_output } (c :: r)
        scanLoop tn fuel s2.1 s2.2
      | .s_output =>
        let s2 := outputIter st (c :: r)
        scanLoop tn fuel s2.1 s2.2
      | .s_code =>
        let s2 := codeStep st (c :: r)
        scanLoop tn fuel s2.1 s2.2
      | .s_expression =>
        let s2 := exprStep st (c :: r)
        scanLoop tn fuel s2.1 s2.2
      | .s_instruction =>
        let s2 := instrIter tn st (c :: r)
        scanLoop tn fuel s2.1 s2.2
      | _ => st

/-- The fixed body-buffer prelude emitted before scanning template `tn`:
`_ENV = ...`, the registry slot with an empty `blk` table, and the `main`
function header. -/
def preludeB (tn : String) : List Char :=
  ("_ENV = ...\ntemplate['").data ++ tn.data ++
  ("'] = \x7b blk = \x7b\x7d \x7d\ntemplate['").data ++ tn.data ++
  ("'].main = function(_ENV, _t)\n").data

/-- `reader` from lt.c for template `tn`: initialize the buffers, run the
scan loop, then apply the end-of-input handling (close a pending literal in
`s_output` when there is no `extends`, move to `s_terminate` from the
literal states and to `s_error` otherwise, and close the `main` function
when there is no `extends`). -/
def reader (p : List Char) (tn : String) : LtScan :=
  let st0 : LtScan :=
    { state := .s_initial, escape := .e_none, exts := false, block := false,
      output := false, cb := 0, inBlocks := false, fnam := [],
      body := preludeB tn, blocks := ("_ENV = ...\n").data, includes := [] }
  let st := scanLoop tn (p.length + 1) st0 p
  let st :=
    if st.state = LtStates.s_output && !st.exts then bufAdd st ("]])\n").data else st
  let st :=
    if st.state = LtStates.s_output || st.state = LtStates.s_initial then
      { st with state := .s_terminate }
    else { st with state := .s_error }
  if !st.exts then bufAdd st ("end\n").data else st

/-! ## The include/inheritance orchestrator (`process_file` in lt.c) -/

/-- Errors surfaced by the model.  `cantStat` is the IOError of a missing
source, `recursionError` the cycle error (`"recursion detected: %s"`),
`nilIndex` the Lua error raised when `render_file` indexes a nil uservalue,
`badMtime` the error `luaL_checkinteger` raises on a nil `mtime` field, and
`fuelOut` marks exhausted fuel (never reached for sufficient fuel). -/
inductive LtErr where
  | cantStat (fnam : String)
  | recursionError (fnam : String)
  | nilIndex
  | badMtime
  | fuelOut
deriving DecidableEq

/-- A source file: its contents and its modification time. -/
structure LtFile where
  content : List Char
  mtime : Int
deriving DecidableEq

/-- The file system, keyed by path. -/
def Fs := List (String × LtFile)

instance : DecidableEq Fs :=
  inferInstanceAs (DecidableEq (List (String × LtFile)))

/-- A registry entry (one slot of the Lua `template` table).  `mtime` is the
field set by `render_file` after a top-level compile (absent otherwise);
executing the generated buffers through the execution engine is modelled by
recording the two compiled code buffers. -/
structure Entry where
  mtime : Option Int
  bodyCode : List Char
  blocksCode : List Char
deriving DecidableEq

/-- The template registry (the Lua `template` table). -/
def Registry := List (String × Entry)

instance : DecidableEq Registry :=
  inferInstanceAs (DecidableEq (List (String × Entry)))

/-- `lua_setfield` on the registry: the new binding shadows any old one. -/
def insertR (k : String) (e : Entry) (reg : Registry) : Registry :=
  (k, e) :: reg

/-- Setting the registry field to nil: remove the binding. -/
def removeR (k : String) (reg : Registry) : Registry :=
  (reg : List (String × Entry)).filter fun kv => kv.1 != k

/-- Path resolution in `process_file`: stat `custom/<fnam>` first, then the
plain name. -/
def resolve (fs : Fs) (fnam : String) : Option LtFile :=
  match List.lookup ("custom/" ++ fnam) (fs : List (String × LtFile)) with
  | some f => some f
  | none => List.lookup fnam (fs : List (String × LtFile))

/-- The dependency loop at the end of `process_file`: for every recorded
include (in the list order built by the scanner), first the cycle check
against the active stack (`"recursion detected"`), then the cache check
(`template[name]` non-nil means skip), and only for uncached names the
recursive compile `pfk`. -/
def processDeps (pfk : String → List String → Registry → Except LtErr Registry) :
    List String → List String → Registry → Except LtErr Registry
  | [], _, reg => .ok reg
  | d :: deps, ihead, reg =>
    if d ∈ ihead then .error (.recursionError d)
    else
      match List.lookup d (reg : List (String × Entry)) with
      | some _ => processDeps pfk deps ihead reg
      | none =>
        match pfk d ihead reg with
        | .error e => .error e
        | .ok reg' => processDeps pfk deps ihead reg'

/-- `process_file` from lt.c, fuelled on the recursion depth: resolve the
source (IOError when absent), push the name onto the active stack, scan the
source, register the compiled template (Modelled from the spec: the
execution engine loads and runs the body and blocks buffers, which register
the template under its name; no `mtime` field is set here), then walk the
recorded dependencies.  The functional active stack is popped implicitly on
return. -/
def process_file (fs : Fs) : Nat → String → List String → Registry → Except LtErr Registry
  | 0 => fun _ _ _ => .error .fuelOut
  | fuel + 1 => fun fnam ihead reg =>
    match resolve fs fnam with
    | none => .error (.cantStat fnam)
    | some file =>
      let st := reader file.content fnam
      let reg1 := insertR fnam { mtime := none, bodyCode := st.body, blocksCode := st.blocks } reg
      processDeps (process_file fs fuel) st.includes (fnam :: ihead) reg1

/-- The names that `resolve` can succeed on: the file-system keys together
with every key's remainder after a `custom/` prefix. -/
def dropCustom (k : String) : Option String :=
  if ("custom/").data.isPrefixOf k.data then some (String.mk (k.data.drop 7)) else none

/-- All names resolvable against `fs`. -/
def baseNames (fs : Fs) : List String :=
  (fs : List (String × LtFile)).map Prod.fst ++
    ((fs : List (String × LtFile)).map Prod.fst).filterMap dropCustom

/-- The number of distinct resolvable names not yet on the active stack:
the bound on the orchestrator's recursion depth. -/
def measureF (fs : Fs) (ihead : List String) : Nat :=
  (((baseNames fs).dedup).filter fun n => decide (n ∉ ihead)).length

/-! ## The render context (`luatemplate.c`) -/

/-- The C functions registered by `luaopen_template`. -/
inductive CFun where
  | render_file_c
  | render_debug_c
  | render_clear_c
deriving DecidableEq

/-- `render_methods` from `luaopen_template`: the methods exposed on a
rendering context. -/
def render_methods : List (String × CFun) :=
  [("renderFile", .render_file_c), ("debug", .render_debug_c)]

/-- The function-valued entries of the context metatable: the exposed
methods plus the `__gc` finalizer (`render_clear`). -/
def metatable_entries : List (String × CFun) :=
  render_methods ++ [("__gc", .render_clear_c)]

/-- The uservalue container of a context: it holds the `template` registry
(together with the helper functions, which are fixed and left implicit). -/
structure Container where
  registry : Registry
deriving DecidableEq

/-- A rendering context: the optional uservalue container, the persistent
include head and the debug flag of `struct render_context`. -/
structure RenderCtx where
  container : Option Container
  ihead : List String
  debug : Bool
deriving DecidableEq

/-- `render_clear` from luatemplate.c: set the context's uservalue to nil
(dropping the registry and the helper functions). -/
def render_clear (ctx : RenderCtx) : RenderCtx :=
  { ctx with container := none }

/-- Set the `mtime` field on the registry entry for `k`
(`lua_pushinteger; lua_setfield(-2, "mtime")` in `render_file`). -/
def setMtime (k : String) (m : Int) (reg : Registry) : Registry :=
  (reg : List (String × Entry)).map fun kv =>
    if kv.1 = k then (kv.1, { kv.2 with mtime := some m }) else kv

/-- `render_file` from luatemplate.c: stat the plain path (error if
missing); index the uservalue (a cleared context raises); if a cached entry
exists, `luaL_checkinteger` its `mtime` (raising on nil) and evict it when
stale; compile through `process_file` when there is no usable entry and
record the file's mtime; finally call the Lua chunk
`render_template(env, fnam)` with the originally requested name — the model
returns the updated context together with that requested name. -/
def render_file_m (fs : Fs) (fuel : Nat) (ctx : RenderCtx) (fnam : String) :
    Except LtErr (RenderCtx × String) :=
  match List.lookup fnam (fs : List (String × LtFile)) with
  | none => .error (.cantStat fnam)
  | some file =>
    match ctx.container with
    | none => .error .nilIndex
    | some cont =>
      let step : Except LtErr Registry :=
        match List.lookup fnam (cont.registry : List (String × Entry)) with
        | some e =>
          match e.mtime with
          | none => .error .badMtime
          | some m =>
            if m ≠ file.mtime then
              (process_file fs fuel fnam ctx.ihead (removeR fnam cont.registry)).map
                (setMtime fnam file.mtime)
            else .ok cont.registry
        | none =>
          (process_file fs fuel fnam ctx.ihead cont.registry).map
            (setMtime fnam file.mtime)
      step.map fun reg' => ({ ctx with container := some ⟨reg'⟩ }, fnam)

/-! ## Render-time dispatch (the embedded Lua chunks in luatemplate.c)

At render time the Lua `template` table holds, per template, a `main`
routine (or nil), a `blk` table of block routines and an `extends` name (or
nil).  Routines are abstract (`ρ`); instantiating `ρ` with the text a
routine writes gives the observable output. -/

/-- One slot of the render-time `template` table. -/
structure TemplateT (ρ : Type) where
  main : Option ρ
  blk : List (String × ρ)
  ext : Option String

/-- The render-time `template` table. -/
def LuaReg (ρ : Type) := List (String × TemplateT ρ)

/-- The Lua chunk `render_block` from luatemplate.c:
walk `t = template[t].extends` while the current template does not define
block `b`, then invoke the block found (no-op when the walk ends in nil).
The Lua while-loop is fuelled; a registry miss, which would raise a Lua
indexing error, yields none. -/
def render_block {ρ : Type} (tmpl : LuaReg ρ) : Nat → Option String → String → Option ρ
  | 0 => fun _ _ => none
  | fuel + 1 => fun t? b =>
    match t? with
    | none => none
    | some t =>
      match List.lookup t (tmpl : List (String × TemplateT ρ)) with
      | none => none
      | some tm =>
        match List.lookup b tm.blk with
        | some r => some r
        | none => render_block tmpl fuel tm.ext b

/-- The root-finding loop of the Lua chunk `render_template`:
`while template[n].extends ~= nil do n = template[n].extends end`. -/
def findRoot {ρ : Type} (tmpl : LuaReg ρ) : Nat → String → Option String
  | 0 => fun _ => none
  | fuel + 1 => fun n =>
    match List.lookup n (tmpl : List (String × TemplateT ρ)) with
    | none => none
    | some tm =>
      match tm.ext with
      | none => some n
      | some n' => findRoot tmpl fuel n'

/-- The Lua chunk `render_template` from luatemplate.c: remember the
requested name `tn = n`, walk to the root of the extends chain, and invoke
`template[root].main(env, tn)` — the model returns the invoked routine
paired with the argument `tn` it receives. -/
def render_template {ρ : Type} (tmpl : LuaReg ρ) (fuel : Nat) (n : String) :
    Option (ρ × String) :=
  (findRoot tmpl fuel n).bind fun root =>
    (List.lookup root (tmpl : List (String × TemplateT ρ))).bind fun tm =>
      tm.main.map fun m => (m, n)

/-- A well-formed extends chain in the render-time registry: `Chain tmpl n c`
says the parent walk from `n` passes exactly through `c` (leaf first) and
ends at a template whose `extends` field is nil. -/
inductive Chain {ρ : Type} (tmpl : LuaReg ρ) : String → List String → Prop where
  | root (n : String) (tm : TemplateT ρ) :
      List.lookup n (tmpl : List (String × TemplateT ρ)) = some tm → tm.ext = none →
      Chain tmpl n [n]
  | step (n : String) (tm : TemplateT ρ) (n' : String) (c : List String) :
      List.lookup n (tmpl : List (String × TemplateT ρ)) = some tm → tm.ext = some n' →
      Chain tmpl n' c → Chain tmpl n (n :: c)

/-- The block routine template `n` itself defines for name `b` (nil when the
template is absent or does not define `b`). -/
def blkOf {ρ : Type} (tmpl : LuaReg ρ) (n b : String) : Option ρ :=
  (List.lookup n (tmpl : List (String × TemplateT ρ))).bind fun tm => List.lookup b tm.blk

/-! ## Spec-modelled execution-engine fragments -/

/-- Modelled from the spec: the render-time escape helper (`escape_html`
and friends are bound by the execution-engine environment, which is not
among the given sources) applies the mode's character substitution —
`lt_escape` — to every character of the value, passing unmatched characters
through unchanged. -/
def escStr (m : LtEscapes) : List Char → List Char
  | [] => []
  | c :: r =>
    (match lt_escape m c with
     | some s => s.data
     | none => [c]) ++ escStr m r

/-- Strip a prefix from a character list, or fail. -/
def stripPrefixL (pre l : List Char) : Option (List Char) :=
  if pre.isPrefixOf l then some (l.drop pre.length) else none

/-- Strip a suffix from a character list, or fail. -/
def stripSuffixL (suf l : List Char) : Option (List Char) :=
  (stripPrefixL suf.reverse l.reverse).map List.reverse

/-- Modelled from the spec: the execution engine compiles the main buffer
and invokes the `main` routine; a main body consisting of no statement
writes nothing, and one consisting of a single literal print
`print([[ ... ]])` writes exactly its literal.  The function recovers that
output from the generated body buffer. -/
def runLiteralMain (tn : String) (body : List Char) : Option (List Char) :=
  (stripPrefixL (preludeB tn) body).bind fun r =>
    (stripSuffixL ("end\n").data r).bind fun mid =>
      if mid = [] then some []
      else
        (stripPrefixL ("print([[").data mid).bind fun r2 =>
          stripSuffixL ("]])\n").data r2

/-- The registry a successful compile returns (the empty registry
otherwise). -/
def regOf : Except LtErr Registry → Registry
  | .ok r => r
  | .error _ => []

/-! ## Concrete fixtures used by witnesses and counterexamples -/

/-- Two templates that include each other: the cyclic file system of the
spec's recursion test. -/
def cycleFs : Fs :=
  [("a", { content := ("<%! include b %>").data, mtime := 0 }),
   ("b", { content := ("<%! include a %>").data, mtime := 0 })]

/-- A file system in which `a` includes `b`. -/
def incFs : Fs :=
  [("a", { content := ("<%! include b %>").data, mtime := 1 }),
   ("b", { content := ("x").data, mtime := 1 })]

/-- A stale cached entry for `b`: compiled when the file had mtime 1. -/
def oldB : Entry :=
  { mtime := some 1, bodyCode := ("OLD").data, blocksCode := [] }

/-- A file system where `b`'s source has changed (mtime 99) since `oldB`
was cached, and `a` includes `b`. -/
def staleFs : Fs :=
  [("a", { content := ("<%! include b %>").data, mtime := 10 }),
   ("b", { content := ("<%! block g %>new<%! endblock %>").data, mtime := 99 })]

/-- A one-file system whose template ends inside an unterminated
expression region. -/
def c7Fs : Fs :=
  [("t", { content := ("<%= x)").data, mtime := 0 })]

/-- Did a compile succeed? -/
def isOkE : Except LtErr Registry → Bool
  | .ok _ => true
  | .error _ => false

/-- The registry produced by compiling `a` (and hence its dependency `b`)
from the `incFs` file system. -/
def depReg : Registry :=
  regOf (process_file incFs 3 ("a") [] [])

/-- The entry the dependency compile of `b` creates: the two compiled
buffers, with no `mtime` field. -/
def depEntry : Entry :=
  { mtime := none, bodyCode := (reader ("x").data ("b")).body,
    blocksCode := (reader ("x").data ("b")).blocks }

/-- A render-time registry with a base template owning `main` and a block
`greeting`, and a child that extends it and overrides the block.  The
routine type is instantiated with the text the routine writes. -/
def cReg : LuaReg String :=
  [("child", { main := none, blk := [("greeting", "Hello")], ext := some "base" }),
   ("base", { main := some "BASEMAIN", blk := [("greeting", "Hi")], ext := none })]

/-- A one-entry file system for the clear() scenario. -/
def clearFs : Fs :=
  [("t", { content := ("hi").data, mtime := 5 })]

/-- A context whose registry holds a fresh compiled entry for `t`. -/
def clearCtx : RenderCtx :=
  { container := some ⟨[("t", { mtime := some 5, bodyCode := [], blocksCode := [] })]⟩,
    ihead := [], debug := false }

instance {ε α : Type} [DecidableEq ε] [DecidableEq α] : DecidableEq (Except ε α) :=
  fun a b =>
  match a, b with
  | .error e, .error e' =>
    decidable_of_iff (e = e') ⟨fun h => by rw [h], fun h => Except.error.inj h⟩
  | .ok x, .ok y =>
    decidable_of_iff (x = y) ⟨fun h => by rw [h], fun h => Except.ok.inj h⟩
  | .error _, .ok _ => .isFalse fun h => Except.noConfusion h
  | .ok _, .error _ => .isFalse fun h => Except.noConfusion h

/-- Substring test: does `a` occur contiguously inside `l`? -/
def infixB (a : List Char) : List Char → Bool
  | [] => a.isPrefixOf []
  | c :: r => a.isPrefixOf (c :: r) || infixB a r

/-! # Theorems -/

lemma lookupEsc_map_eq (f : Char → String) (l : List Char) (c : Char) :
    lookupEsc (l.map fun k => (k, f k)) c = if c ∈ l then some (f c) else none := by
  induction l with
  | nil => simp [lookupEsc]
  | cons k l ih =>
    simp only [List.map_cons, lookupEsc, List.mem_cons]
    by_cases hk : k = c
    · subst hk; simp
    · simp [hk, ih, Ne.symm hk]

lemma url_escape_eq_map : url_escape = urlReserved.map fun k => (k, pctHex k) := by
  decide

/-- C3: for every non-trivial escape mode (html, xml, latex, url) and every
character, `lt_escape` returns exactly the substitution string of the spec's
table for that mode when the character is in the table, and no substitution
(pass-through) when the character is absent. -/
theorem lt_escape_matches_spec (m : LtEscapes) (hm : m ≠ .e_none) (c : Char) :
    lt_escape m c = specEscape m c := by
  cases m with
  | e_none => exact absurd rfl hm
  | e_html => rfl
  | e_xml => rfl
  | e_latex => rfl
  | e_url =>
    show lookupEsc url_escape c = specEscape .e_url c
    rw [url_escape_eq_map, lookupEsc_map_eq]
    rfl

/-- Witness for C3: the theorem applied at the html mode and the ampersand. -/
theorem lt_escape_matches_spec_witness :
    (LtEscapes.e_html ≠ LtEscapes.e_none) ∧
      lt_escape .e_html '&' = specEscape .e_html '&' :=
  ⟨by decide, lt_escape_matches_spec .e_html (by decide) '&'⟩

/-! ### Scanner lemmas for directive-free templates -/

lemma stripPrefixL_append (pre l : List Char) :
    stripPrefixL pre (pre ++ l) = some l := by
  simp [stripPrefixL, List.isPrefixOf_iff_prefix, List.prefix_append, List.drop_left]

lemma stripSuffixL_append (suf l : List Char) :
    stripSuffixL suf (l ++ suf) = some l := by
  simp [stripSuffixL, List.reverse_append, stripPrefixL_append]

lemma infixB_cons_false {a : List Char} {c : Char} {r : List Char}
    (h : infixB a (c :: r) = false) :
    a.isPrefixOf (c :: r) = false ∧ infixB a r = false := by
  simpa [infixB, Bool.or_eq_false_iff] using h

/-- While in the output state with no directive opener anywhere ahead, the
scan loop copies the remaining input verbatim into the body buffer. -/
lemma scanLoop_literal (tn : String) (p : List Char) : ∀ (fuel : Nat) (st : LtScan),
    st.state = .s_output → st.inBlocks = false → infixB ("<%").data p = false →
    p.length < fuel →
    scanLoop tn fuel st p = { st with body := st.body ++ p } := by
  induction p with
  | nil =>
    intro fuel st _ _ _ _
    cases fuel <;> simp [scanLoop]
  | cons c r ih =>
    intro fuel st hst hib hinf hlen
    obtain ⟨pfx, hinf'⟩ := infixB_cons_false hinf
    cases fuel with
    | zero => simp at hlen
    | succ f =>
      obtain ⟨sst, esc, ex, bl, out, cb, inB, fn, bd, bk, inc⟩ := st
      simp only at hst hib
      subst hst hib
      have hcopy : outputIter
          ⟨.s_output, esc, ex, bl, out, cb, false, fn, bd, bk, inc⟩ (c :: r) =
          (⟨.s_output, esc, ex, bl, out, cb, false, fn, bd ++ [c], bk, inc⟩, r) := by
        simp [outputIter, hasPfx, pfx, bufAdd]
      simp only [scanLoop, hcopy]
      rw [ih f _ rfl rfl hinf' (by simpa using Nat.lt_of_succ_lt_succ hlen)]
      simp

/-- One loop iteration started in the initial state on directive-free input
opens the literal print and copies the whole input. -/
lemma scanLoop_literal_initial (tn : String) (c : Char) (r : List Char)
    (f : Nat) (st : LtScan)
    (hst : st.state = .s_initial) (hex : st.exts = false)
    (hib : st.inBlocks = false)
    (hinf : infixB ("<%").data (c :: r) = false) (hlen : r.length < f) :
    scanLoop tn (f + 1) st (c :: r) =
      { st with
          state := .s_output
          output := true
          body := st.body ++ ("print([[").data ++ (c :: r) } := by
  obtain ⟨pfx, hinf'⟩ := infixB_cons_false hinf
  obtain ⟨sst, esc, ex, bl, out, cb, inB, fn, bd, bk, inc⟩ := st
  simp only at hst hex hib
  subst hst hex hib
  have hcond : (!(hasPfx ("<%").data (c :: r)) && (!false || bl)) = true := by
    simp [hasPfx, pfx]
  have hcopy : outputIter
      ⟨.s_output, esc, false, bl, true, cb, false, fn,
        bd ++ ("print([[").data, bk, inc⟩ (c :: r) =
      (⟨.s_output, esc, false, bl, true, cb, false, fn,
        (bd ++ ("print([[").data) ++ [c], bk, inc⟩, r) := by
    simp [outputIter, hasPfx, pfx, bufAdd]
  simp only [scanLoop, hcond, if_true, bufAdd, Bool.false_eq_true, if_false]
  simp only [hcopy]
  rw [scanLoop_literal tn r _ _ rfl rfl hinf' hlen]
  simp

/-- C8: a template source containing no `<%` directive opener scans to a
main routine that is a single literal print of the exact source text, whose
execution writes output identical, character for character, to the source.
(The execution of the generated print is the spec-modelled engine
`runLiteralMain`.) -/
theorem directive_free_renders_source (tn : String) (s : List Char)
    (h : infixB ("<%").data s = false) :
    runLiteralMain tn (reader s tn).body = some s := by
  cases s with
  | nil =>
    have hb : (reader [] tn).body = preludeB tn ++ ("end\n").data := rfl
    rw [hb, runLiteralMain, stripPrefixL_append]
    simp only [Option.some_bind]
    have hs : stripSuffixL ("end\n").data (("end\n").data) = some [] := by
      have := stripSuffixL_append ("end\n").data []
      simpa using this
    rw [hs]
    simp
  | cons c r =>
    obtain ⟨pfx, hinf'⟩ := infixB_cons_false h
    have hb : (reader (c :: r) tn).body =
        preludeB tn ++ ((("print([[").data ++ (c :: r) ++ ("]])\n").data) ++
          ("end\n").data) := by
      simp only [reader]
      rw [scanLoop_literal_initial tn c r ((c :: r).length) _ rfl rfl rfl h (by simp)]
      simp [bufAdd, preludeB]
    rw [hb, runLiteralMain, stripPrefixL_append]
    simp only [Option.some_bind]
    rw [stripSuffixL_append]
    simp only [Option.some_bind]
    have hne : (("print([[").data ++ (c :: r) ++ ("]])\n").data) ≠ [] := by simp
    rw [if_neg hne, List.append_assoc, stripPrefixL_append]
    simp only [Option.some_bind]
    rw [stripSuffixL_append]

/-- Witness for C8: the theorem applied at a concrete directive-free
template. -/
theorem directive_free_renders_source_witness :
    infixB ("<%").data ("Hello, world.").data = false ∧
      runLiteralMain ("t") (reader ("Hello, world.").data ("t")).body =
        some ("Hello, world.").data :=
  ⟨by decide, directive_free_renders_source ("t") ("Hello, world.").data (by decide)⟩

/-! ### Expression mode tags (claim C4) -/

/-- C4 counterexample: scanning the claim's template `<%= html name %>`
(with a space between `=` and the mode tag) emits a plain, unescaped print
whose expression text is `html name ` — no escape call is generated at all,
so rendering cannot write the escaped value. -/
theorem spaced_mode_tag_not_recognized :
    infixB ("escape").data (reader ("<%= html name %>").data ("t")).body = false ∧
      (reader ("<%= html name %>").data ("t")).body =
        preludeB ("t") ++ ("print(html name )\n").data ++ ("end\n").data := by
  decide

/-- C4 (amended): with the mode tag immediately after `=`, the scanner
emits the single escaped print `print(escape_html(name ))` for that
expression only (a later untagged expression stays unescaped), and applying
the html escaping to `<b>` yields exactly `&lt;b&gt;`. -/
theorem mode_tag_escapes_expression :
    (reader ("<%=html name %>").data ("t")).body =
        preludeB ("t") ++ ("print(escape_html(name ))\n").data ++ ("end\n").data ∧
      (reader ("<%=html a %><%= b %>").data ("t")).body =
        preludeB ("t") ++ ("print(escape_html(a ))\n").data ++
          ("print(b )\n").data ++ ("end\n").data ∧
      escStr .e_html ("<b>").data = ("&lt;b&gt;").data := by
  decide

/-! ### End-of-input handling (claim C7) -/

/-- C7: on the template `<%= x)`, whose input ends inside an unterminated
expression region, the scanner does reach the error state `s_error`, but
the state is discarded: the buffers are still produced — the generated main
body is `print(x)end`, which is well-formed generated code — and
`process_file` completes successfully, surfacing no SyntaxError. -/
theorem unterminated_expression_error_dropped :
    (reader ("<%= x)").data ("t")).state = .s_error ∧
      (reader ("<%= x)").data ("t")).body =
        preludeB ("t") ++ ("print(x)end\n").data ∧
      isOkE (process_file c7Fs 2 ("t") [] []) = true := by
  decide

/-! ### Orchestrator lemmas: termination measure and registry invariants -/

lemma lookup_some_mem_keys {α β : Type} [BEq α] [LawfulBEq α]
    {l : List (α × β)} {k : α} {v : β} (h : List.lookup k l = some v) :
    k ∈ l.map Prod.fst := by
  induction l with
  | nil => simp [List.lookup] at h
  | cons kv l ih =>
    rw [List.lookup] at h
    by_cases hk : k == kv.1
    · simp only [List.map_cons, List.mem_cons]
      exact Or.inl (eq_of_beq hk)
    · rw [Bool.not_eq_true] at hk
      rw [hk] at h
      simp only [List.map_cons, List.mem_cons]
      exact Or.inr (ih h)

lemma resolve_mem_baseNames {fs : Fs} {n : String} (h : resolve fs n ≠ none) :
    n ∈ baseNames fs := by
  unfold resolve at h
  cases hc : List.lookup ("custom/" ++ n) (fs : List (String × LtFile)) with
  | some f =>
    have hk := lookup_some_mem_keys hc
    refine List.mem_append.mpr (Or.inr ?_)
    refine List.mem_filterMap.mpr ⟨"custom/" ++ n, hk, ?_⟩
    unfold dropCustom
    have hdata : ("custom/" ++ n).data = ("custom/").data ++ n.data := by
      simp
    have hpre : ("custom/").data.isPrefixOf ("custom/" ++ n).data = true := by
      rw [hdata]
      exact List.isPrefixOf_iff_prefix.mpr (List.prefix_append _ _)
    rw [if_pos hpre, hdata]
    rw [show (7 : Nat) = ("custom/").data.length from rfl, List.drop_left]
  | none =>
    rw [hc] at h
    cases hp : List.lookup n (fs : List (String × LtFile)) with
    | none => rw [hp] at h; exact absurd rfl h
    | some f => exact List.mem_append.mpr (Or.inl (lookup_some_mem_keys hp))

lemma filter_stack_cons_lt (n : String) (ihead : List String) :
    ∀ xs : List String, n ∈ xs → n ∉ ihead →
      (List.filter (fun x => decide (x ∉ n :: ihead)) xs).length <
        (List.filter (fun x => decide (x ∉ ihead)) xs).length := by
  intro xs
  induction xs with
  | nil => intro h; simp at h
  | cons x xs ih =>
    intro hmem hn
    have hmono : (List.filter (fun x => decide (x ∉ n :: ihead)) xs).length ≤
        (List.filter (fun x => decide (x ∉ ihead)) xs).length := by
      refine List.Sublist.length_le (List.monotone_filter_right xs ?_)
      intro a ha
      simp only [decide_eq_true_eq, List.mem_cons, not_or] at ha ⊢
      exact ha.2
    by_cases hx : x = n
    · subst hx
      have h1 : decide (x ∉ x :: ihead) = false := by simp
      have h2 : decide (x ∉ ihead) = true := by simp [hn]
      simp only [List.filter, h1, h2]
      exact Nat.lt_succ_of_le hmono
    · have hmem' : n ∈ xs := by
        rcases List.mem_cons.mp hmem with h | h
        · exact absurd h.symm hx
        · exact h
      have hlt := ih hmem' hn
      by_cases hcx : x ∈ ihead
      · have h1 : decide (x ∉ n :: ihead) = false := by
          simp [List.mem_cons, hcx]
        have h2 : decide (x ∉ ihead) = false := by simp [hcx]
        simp only [List.filter, h1, h2]
        exact hlt
      · have h1 : decide (x ∉ n :: ihead) = true := by
          simp [List.mem_cons, hx, hcx]
        have h2 : decide (x ∉ ihead) = true := by simp [hcx]
        simp only [List.filter, h1, h2]
        exact Nat.succ_lt_succ hlt

lemma measureF_cons_lt {fs : Fs} {n : String} {ihead : List String}
    (hres : resolve fs n ≠ none) (hn : n ∉ ihead) :
    measureF fs (n :: ihead) < measureF fs ihead := by
  have hmem : n ∈ (baseNames fs).dedup :=
    List.mem_dedup.mpr (resolve_mem_baseNames hres)
  exact filter_stack_cons_lt n ihead _ hmem hn

/-- Two compile continuations that agree off the active stack make the
dependency walk agree. -/
lemma processDeps_congr
    (pfk1 pfk2 : String → List String → Registry → Except LtErr Registry)
    (ihead : List String)
    (hk : ∀ d reg, d ∉ ihead → pfk1 d ihead reg = pfk2 d ihead reg) :
    ∀ (deps : List String) (reg : Registry),
      processDeps pfk1 deps ihead reg = processDeps pfk2 deps ihead reg := by
  intro deps
  induction deps with
  | nil => intro reg; rfl
  | cons d deps ih =>
    intro reg
    simp only [processDeps]
    by_cases hd : d ∈ ihead
    · simp [hd]
    · simp only [if_neg hd]
      cases hL : List.lookup d (reg : List (String × Entry)) with
      | some e => exact ih reg
      | none =>
        rw [hk d reg hd]
        cases pfk2 d ihead reg with
        | error e => rfl
        | ok reg' => exact ih reg'

/-- Fuel irrelevance: any fuel exceeding the number of distinct resolvable
templates off the active stack computes the same result — the dependency
walk terminates, its depth bounded by the number of distinct templates. -/
lemma pf_stable (fs : Fs) : ∀ (f g : Nat) (fnam : String) (ihead : List String)
    (reg : Registry), fnam ∉ ihead → measureF fs ihead < f → measureF fs ihead < g →
    process_file fs f fnam ihead reg = process_file fs g fnam ihead reg := by
  intro f
  induction f using Nat.strong_induction_on with
  | _ f IH =>
    intro g fnam ihead reg hmem hf hg
    cases f with
    | zero => exact absurd hf (Nat.not_lt_zero _)
    | succ f' =>
      cases g with
      | zero => exact absurd hg (Nat.not_lt_zero _)
      | succ g' =>
        simp only [process_file]
        cases hres : resolve fs fnam with
        | none => rfl
        | some file =>
          have hlt : measureF fs (fnam :: ihead) < measureF fs ihead :=
            measureF_cons_lt (by rw [hres]; exact Option.some_ne_none file) hmem
          have hf' : measureF fs (fnam :: ihead) < f' :=
            Nat.lt_of_lt_of_le hlt (Nat.lt_succ_iff.mp hf)
          have hg' : measureF fs (fnam :: ihead) < g' :=
            Nat.lt_of_lt_of_le hlt (Nat.lt_succ_iff.mp hg)
          exact processDeps_congr _ _ _
            (fun d reg2 hd => IH f' (Nat.lt_succ_self f') g' d (fnam :: ihead) reg2 hd hf' hg') _ _

/-- Provenance of registry entries through the dependency walk: every entry
of the output registry was either already present or carries no mtime. -/
lemma processDeps_fresh
    (pfk : String → List String → Registry → Except LtErr Registry)
    (hk : ∀ d ihead reg reg', pfk d ihead reg = .ok reg' →
      ∀ n e, List.lookup n (reg' : List (String × Entry)) = some e →
        List.lookup n (reg : List (String × Entry)) = some e ∨ e.mtime = none) :
    ∀ (deps : List String) (ihead : List String) (reg reg' : Registry),
      processDeps pfk deps ihead reg = .ok reg' →
      ∀ n e, List.lookup n (reg' : List (String × Entry)) = some e →
        List.lookup n (reg : List (String × Entry)) = some e ∨ e.mtime = none := by
  intro deps
  induction deps with
  | nil =>
    intro ihead reg reg' h n e hl
    simp only [processDeps] at h
    cases h
    exact Or.inl hl
  | cons d deps ih =>
    intro ihead reg reg' h n e hl
    simp only [processDeps] at h
    by_cases hd : d ∈ ihead
    · rw [if_pos hd] at h; cases h
    · rw [if_neg hd] at h
      cases hL : List.lookup d (reg : List (String × Entry)) with
      | some e0 => rw [hL] at h; exact ih _ _ _ h n e hl
      | none =>
        rw [hL] at h
        cases hpf : pfk d ihead reg with
        | error err => rw [hpf] at h; cases h
        | ok regm =>
          rw [hpf] at h
          rcases ih _ _ _ h n e hl with hmid | hmt
          · exact hk d ihead reg regm hpf n e hmid
          · exact Or.inr hmt

/-- Every entry a compile adds to the registry carries no `mtime` field
(the field is set only by `render_file` for the top-level path). -/
lemma pf_fresh (fs : Fs) : ∀ (fuel : Nat) (fnam : String) (ihead : List String)
    (reg reg' : Registry), process_file fs fuel fnam ihead reg = .ok reg' →
    ∀ n e, List.lookup n (reg' : List (String × Entry)) = some e →
      List.lookup n (reg : List (String × Entry)) = some e ∨ e.mtime = none := by
  intro fuel
  induction fuel with
  | zero => intro fnam ihead reg reg' h; cases h
  | succ f ihf =>
    intro fnam ihead reg reg' h n e hl
    simp only [process_file] at h
    cases hres : resolve fs fnam with
    | none => rw [hres] at h; cases h
    | some file =>
      rw [hres] at h
      rcases processDeps_fresh (process_file fs f)
          (fun d ih r r' hh => ihf d ih r r' hh) _ _ _ _ h n e hl with hmid | hmt
      · rw [insertR, List.lookup] at hmid
        by_cases hn : n == fnam
        · rw [hn] at hmid
          cases hmid
          exact Or.inr rfl
        · rw [Bool.not_eq_true] at hn
          rw [hn] at hmid
          exact Or.inl hmid
      · exact Or.inr hmt

/-- Preservation through the dependency walk: the walk only ever compiles
names that are absent from the registry, so present entries survive. -/
lemma processDeps_keep
    (pfk : String → List String → Registry → Except LtErr Registry)
    (hk : ∀ d ihead reg reg', List.lookup d (reg : List (String × Entry)) = none →
      pfk d ihead reg = .ok reg' →
      ∀ n e, List.lookup n (reg : List (String × Entry)) = some e →
        List.lookup n (reg' : List (String × Entry)) = some e) :
    ∀ (deps : List String) (ihead : List String) (reg reg' : Registry),
      processDeps pfk deps ihead reg = .ok reg' →
      ∀ n e, List.lookup n (reg : List (String × Entry)) = some e →
        List.lookup n (reg' : List (String × Entry)) = some e := by
  intro deps
  induction deps with
  | nil =>
    intro ihead reg reg' h n e hl
    simp only [processDeps] at h
    cases h
    exact hl
  | cons d deps ih =>
    intro ihead reg reg' h n e hl
    simp only [processDeps] at h
    by_cases hd : d ∈ ihead
    · rw [if_pos hd] at h; cases h
    · rw [if_neg hd] at h
      cases hL : List.lookup d (reg : List (String × Entry)) with
      | some e0 => rw [hL] at h; exact ih _ _ _ h n e hl
      | none =>
        rw [hL] at h
        cases hpf : pfk d ihead reg with
        | error err => rw [hpf] at h; cases h
        | ok regm =>
          rw [hpf] at h
          exact ih _ _ _ h n e (hk d ihead reg regm hL hpf n e hl)

/-- A compile never touches registry entries other than the one for its
own top-level path: cached entries are skipped with no staleness check. -/
lemma pf_keep (fs : Fs) : ∀ (fuel : Nat) (fnam : String) (ihead : List String)
    (reg reg' : Registry), process_file fs fuel fnam ihead reg = .ok reg' →
    ∀ n e, List.lookup n (reg : List (String × Entry)) = some e → n ≠ fnam →
      List.lookup n (reg' : List (String × Entry)) = some e := by
  intro fuel
  induction fuel with
  | zero => intro fnam ihead reg reg' h; cases h
  | succ f ihf =>
    intro fnam ihead reg reg' h n e hl hne
    simp only [process_file] at h
    cases hres : resolve fs fnam with
    | none => rw [hres] at h; cases h
    | some file =>
      rw [hres] at h
      have hl1 : List.lookup n
          ((insertR fnam
            { mtime := none, bodyCode := (reader file.content fnam).body,
              blocksCode := (reader file.content fnam).blocks } reg) :
            List (String × Entry)) = some e := by
        rw [insertR, List.lookup]
        have : (n == fnam) = false := by
          rw [beq_eq_false_iff_ne]
          exact hne
        rw [this]
        exact hl
      refine processDeps_keep (process_file fs f) ?_ _ _ _ _ h n e hl1
      intro d ih r r' hnone hh m e' hm
      have hmd : m ≠ d := fun hdm => by rw [hdm, hnone] at hm; cases hm
      exact ihf d ih r r' hh m e' hm hmd

/-! ### Cycle detection and termination (claim C2) -/

/-- C2: the dependency walk always terminates with recursion depth bounded
by the number of distinct templates — any two fuels exceeding the count of
distinct resolvable names off the active stack compute the same result —
and a top-level compile of either template of the two-cycle
`a includes b includes a` fails with a RecursionError naming the offending
path. -/
theorem include_cycle_detected :
    (∀ (fs : Fs) (f g : Nat) (fnam : String) (ihead : List String) (reg : Registry),
        fnam ∉ ihead → measureF fs ihead < f → measureF fs ihead < g →
        process_file fs f fnam ihead reg = process_file fs g fnam ihead reg) ∧
      process_file cycleFs 3 ("a") [] [] = .error (.recursionError ("a")) ∧
      process_file cycleFs 3 ("b") [] [] = .error (.recursionError ("b")) :=
  ⟨fun fs f g fnam ihead reg => pf_stable fs f g fnam ihead reg, by decide, by decide⟩

/-- Witness for C2: the fuel-irrelevance part applied at the concrete
cyclic file system, with the hypotheses discharged there. -/
theorem include_cycle_detected_witness :
    (("a") ∉ ([] : List String)) ∧ measureF cycleFs [] < 5 ∧ measureF cycleFs [] < 9 ∧
      process_file cycleFs 5 ("a") [] [] = process_file cycleFs 9 ("a") [] [] :=
  ⟨by decide, by decide, by decide,
    include_cycle_detected.1 cycleFs 5 9 ("a") [] [] (by decide) (by decide) (by decide)⟩

/-! ### Dependency caching (claim C6) -/

/-- C6 counterexample: with `b` cached from an old compile (entry mtime 1)
while `b`'s source file now has mtime 99 and different contents, compiling
`a` (which includes `b`) succeeds yet leaves the stale cached entry for `b`
untouched — the dependency is skipped with no freshness check, not
recompiled. -/
theorem stale_dependency_not_recompiled :
    isOkE (process_file staleFs 3 ("a") [] [("b", oldB)]) = true ∧
      List.lookup ("b")
          ((regOf (process_file staleFs 3 ("a") [] [("b", oldB)])) :
            List (String × Entry)) = some oldB ∧
      oldB.mtime = some 1 ∧
      (List.lookup ("b") (staleFs : List (String × LtFile))).map LtFile.mtime =
        some 99 := by
  decide

/-- C6 (amended): during a compile every dependency that is already in the
registry is skipped regardless of freshness — a successful compile leaves
every cached entry other than the one for its own top-level path exactly as
it was, even when the dependency's source mtime has changed; only uncached
dependencies are recursed into. -/
theorem cached_dependencies_skipped (fs : Fs) (fuel : Nat) (fnam : String)
    (ihead : List String) (reg reg' : Registry)
    (h : process_file fs fuel fnam ihead reg = .ok reg')
    (n : String) (e : Entry)
    (hcached : List.lookup n (reg : List (String × Entry)) = some e)
    (hne : n ≠ fnam) :
    List.lookup n (reg' : List (String × Entry)) = some e :=
  pf_keep fs fuel fnam ihead reg reg' h n e hcached hne

/-- Witness for C6: the amended theorem applied at the stale fixture. -/
theorem cached_dependencies_skipped_witness :
    process_file staleFs 3 ("a") [] [("b", oldB)] =
        .ok (regOf (process_file staleFs 3 ("a") [] [("b", oldB)])) ∧
      List.lookup ("b") (([("b", oldB)] : Registry) : List (String × Entry)) =
        some oldB ∧
      (("b") : String) ≠ ("a") ∧
      List.lookup ("b")
        ((regOf (process_file staleFs 3 ("a") [] [("b", oldB)])) :
          List (String × Entry)) = some oldB :=
  ⟨by decide, by decide, by decide,
    cached_dependencies_skipped staleFs 3 ("a") [] [("b", oldB)] _
      (by decide) ("b") oldB (by decide) (by decide)⟩

/-! ### Dependency entries and the mtime check (claim C10) -/

/-- C10: a registry entry created during a compile carries no `mtime` field
(every output entry is either the unchanged input entry or mtime-free), and
a later direct `renderFile` of a path cached with a missing mtime fails at
the cached-entry mtime check (`luaL_checkinteger` on the nil field) instead
of rendering the cached entry or recompiling it. -/
theorem dependency_entries_lack_mtime :
    (∀ (fs : Fs) (fuel : Nat) (fnam : String) (ihead : List String)
        (reg reg' : Registry),
        process_file fs fuel fnam ihead reg = .ok reg' →
        ∀ n e, List.lookup n (reg' : List (String × Entry)) = some e →
          List.lookup n (reg : List (String × Entry)) = some e ∨ e.mtime = none) ∧
      (∀ (fs : Fs) (fuel : Nat) (cont : Container) (ihead : List String) (dbg : Bool)
          (fnam : String) (e : Entry) (file : LtFile),
        List.lookup fnam (cont.registry : List (String × Entry)) = some e →
        e.mtime = none →
        List.lookup fnam (fs : List (String × LtFile)) = some file →
        render_file_m fs fuel
            { container := some cont, ihead := ihead, debug := dbg } fnam =
          .error .badMtime) := by
  constructor
  · exact fun fs fuel => pf_fresh fs fuel
  · intro fs fuel cont ihead dbg fnam e file hreg hmt hfile
    simp only [render_file_m, hfile, hreg, hmt]
    rfl

/-- Witness for C10: compiling `a` from `incFs` caches its dependency `b`
with no mtime, and the theorem's second part then makes a direct
`renderFile` of `b` fail at the mtime check. -/
theorem dependency_entries_lack_mtime_witness :
    List.lookup ("b") (depReg : List (String × Entry)) = some depEntry ∧
      depEntry.mtime = none ∧
      render_file_m incFs 3
          { container := some ⟨depReg⟩, ihead := [], debug := false } ("b") =
        .error .badMtime :=
  ⟨by decide, by decide,
    dependency_entries_lack_mtime.2 incFs 3 ⟨depReg⟩ [] false ("b") depEntry
      { content := ("x").data, mtime := 1 } (by decide) (by decide) (by decide)⟩

/-! ### Render-time block dispatch (claim C1) -/

lemma render_block_none {ρ : Type} (tmpl : LuaReg ρ) (f : Nat) (b : String) :
    render_block tmpl f none b = none := by
  cases f <;> rfl

/-- C1: `render_block` walks the parent chain from the requested template
toward the root and invokes the block routine of the first (most-derived)
template on the chain that defines the block; when no template on the chain
defines it, nothing is invoked. -/
theorem render_block_first_definer {ρ : Type} (tmpl : LuaReg ρ) (t : String)
    (c : List String) (b : String) (fuel : Nat)
    (hc : Chain tmpl t c) (hf : c.length ≤ fuel) :
    render_block tmpl fuel (some t) b =
      (c.find? fun n => (blkOf tmpl n b).isSome).bind fun n => blkOf tmpl n b := by
  induction hc generalizing fuel with
  | root n tm hl he =>
    cases fuel with
    | zero => simp at hf
    | succ f =>
      simp only [render_block, hl]
      cases hblk : List.lookup b tm.blk with
      | some r => simp [List.find?, blkOf, hl, hblk]
      | none => simp [he, render_block_none, blkOf, hl, hblk, List.find?]
  | step n tm n' c hl he hcc ih =>
    cases fuel with
    | zero => simp at hf
    | succ f =>
      simp only [render_block, hl]
      cases hblk : List.lookup b tm.blk with
      | some r => simp [List.find?, blkOf, hl, hblk]
      | none =>
        rw [he, ih f (Nat.le_of_succ_le_succ (by simpa using hf))]
        have hp : (blkOf tmpl n b).isSome = false := by
          simp [blkOf, hl, hblk]
        simp [List.find?, hp]

/-- Witness for C1: the theorem applied on the base/child override fixture:
rendering the child's `greeting` block yields the child's routine
(text `Hello`), rendering the base's directly yields the base's (`Hi`), and
an undefined block name dispatches to nothing. -/
theorem render_block_first_definer_witness :
    Chain cReg ("child") [("child"), ("base")] ∧
      render_block cReg 2 (some ("child")) ("greeting") = some ("Hello") ∧
      render_block cReg 2 (some ("base")) ("greeting") = some ("Hi") ∧
      render_block cReg 2 (some ("child")) ("missing") = none := by
  have hbase : Chain cReg ("base") [("base")] :=
    Chain.root ("base") _ rfl rfl
  have hch : Chain cReg ("child") [("child"), ("base")] :=
    Chain.step ("child") _ ("base") _ rfl rfl hbase
  refine ⟨hch, ?_, ?_, ?_⟩
  · exact (render_block_first_definer cReg ("child") [("child"), ("base")]
      ("greeting") 2 hch (by decide)).trans (by decide)
  · exact (render_block_first_definer cReg ("base") [("base")]
      ("greeting") 2 hbase (by decide)).trans (by decide)
  · exact (render_block_first_definer cReg ("child") [("child"), ("base")]
      ("missing") 2 hch (by decide)).trans (by decide)

/-! ### Render-time template dispatch (claim C5) -/

lemma chain_ne_nil {ρ : Type} {tmpl : LuaReg ρ} {t : String} {c : List String}
    (hc : Chain tmpl t c) : c ≠ [] := by
  cases hc <;> simp

lemma findRoot_chain {ρ : Type} (tmpl : LuaReg ρ) (t : String) (c : List String)
    (fuel : Nat) (hc : Chain tmpl t c) (hf : c.length ≤ fuel) (root : String)
    (hlast : c.getLast? = some root) :
    findRoot tmpl fuel t = some root := by
  induction hc generalizing fuel with
  | root n tm hl he =>
    cases fuel with
    | zero => simp at hf
    | succ f =>
      simp only [List.getLast?_singleton, Option.some.injEq] at hlast
      subst hlast
      simp [findRoot, hl, he]
  | step n tm n' c hl he hcc ih =>
    cases fuel with
    | zero => simp at hf
    | succ f =>
      have hc' : c.getLast? = some root := by
        rcases c with _ | ⟨x, xs⟩
        · exact absurd rfl (chain_ne_nil hcc)
        · simpa [List.getLast?_cons_cons] using hlast
      simp only [findRoot, hl, he]
      exact ih f (Nat.le_of_succ_le_succ (by simpa using hf)) hc'

lemma map_snd_ok {α : Type} (s : Except LtErr Registry) (f : Registry → α)
    (fnam : String) (p : α × String)
    (h : s.map (fun r => (f r, fnam)) = .ok p) : p.2 = fnam := by
  cases s with
  | error e => cases h
  | ok r => cases h; rfl

/-- C5: a successful `renderFile` invokes the Lua chunk `render_template`
with the originally requested path, and `render_template` walks the parent
chain to the root (the chain member owning the non-nil `main`) and invokes
that root's `main` with the originally requested (leaf) path as argument —
not the root's path — so block dispatch during the render resolves relative
to the leaf. -/
theorem render_template_invokes_root_main :
    (∀ (ρ : Type) (tmpl : LuaReg ρ) (path : String) (c : List String)
        (root : String) (rootTm : TemplateT ρ) (m : ρ) (fuel : Nat),
      Chain tmpl path c → c.length ≤ fuel → c.getLast? = some root →
      List.lookup root (tmpl : List (String × TemplateT ρ)) = some rootTm →
      rootTm.main = some m →
      render_template tmpl fuel path = some (m, path)) ∧
    (∀ (fs : Fs) (fuel : Nat) (ctx : RenderCtx) (fnam : String)
        (p : RenderCtx × String),
      render_file_m fs fuel ctx fnam = .ok p → p.2 = fnam) := by
  constructor
  · intro ρ tmpl path c root rootTm m fuel hc hf hlast hroot hmain
    unfold render_template
    rw [findRoot_chain tmpl path c fuel hc hf root hlast]
    simp [hroot, hmain]
  · intro fs fuel ctx fnam p h
    simp only [render_file_m] at h
    cases hfs : List.lookup fnam (fs : List (String × LtFile)) with
    | none => rw [hfs] at h; cases h
    | some file =>
      rw [hfs] at h
      cases hc : ctx.container with
      | none => rw [hc] at h; cases h
      | some cont =>
        rw [hc] at h
        exact map_snd_ok _ _ _ _ h

/-- Witness for C5: on the base/child fixture, rendering the child invokes
the base's `main` routine with the child's (requested) name as argument;
and a concrete successful `renderFile` hands `render_template` exactly the
requested path. -/
theorem render_template_invokes_root_main_witness :
    render_template cReg 2 ("child") = some (("BASEMAIN"), ("child")) ∧
      ((clearCtx, ("t")) : RenderCtx × String).2 = ("t") := by
  have hbase : Chain cReg ("base") [("base")] :=
    Chain.root ("base") _ rfl rfl
  have hch : Chain cReg ("child") [("child"), ("base")] :=
    Chain.step ("child") _ ("base") _ rfl rfl hbase
  constructor
  · exact render_template_invokes_root_main.1 String cReg ("child")
      [("child"), ("base")] ("base") _ ("BASEMAIN") 2 hch (by decide)
      (by decide) rfl rfl
  · exact render_template_invokes_root_main.2 clearFs 3 clearCtx ("t")
      (clearCtx, ("t")) (by decide)

/-! ### The clear operation (claim C9) -/

/-- C9 counterexample: `clear` is not among the context's host-facing
entries (`render_clear` is installed only as the `__gc` metamethod), and on
a context whose registry holds a fresh compiled template, running
`render_clear` and then re-rendering the same path does not recompile and
reproduce the previous result — it fails with the nil-uservalue indexing
error, while the pre-clear render succeeds. -/
theorem clear_not_exposed_and_breaks_rendering :
    List.lookup ("clear") metatable_entries = none ∧
      render_file_m clearFs 3 clearCtx ("t") = .ok (clearCtx, ("t")) ∧
      render_file_m clearFs 3 (render_clear clearCtx) ("t") =
        .error .nilIndex := by
  decide

/-- C9 (amended): `render_clear` is registered only as the `__gc`
finalizer, not as a `clear()` method; it drops the entire uservalue
container (the registry with it), and any later `renderFile` of an existing
path on the cleared context fails with the nil-indexing error instead of
recompiling and reproducing the previous output. -/
theorem render_clear_drops_container :
    (∀ ctx : RenderCtx, (render_clear ctx).container = none) ∧
      (∀ (fs : Fs) (fuel : Nat) (ctx : RenderCtx) (fnam : String) (file : LtFile),
        List.lookup fnam (fs : List (String × LtFile)) = some file →
        render_file_m fs fuel (render_clear ctx) fnam = .error .nilIndex) ∧
      List.lookup ("clear") metatable_entries = none ∧
      List.lookup ("__gc") metatable_entries = some .render_clear_c := by
  refine ⟨fun ctx => rfl, ?_, by decide, by decide⟩
  intro fs fuel ctx fnam file hfile
  simp only [render_file_m, hfile, render_clear]

/-- Witness for C9: the amended theorem applied on the concrete cleared
context. -/
theorem render_clear_drops_container_witness :
    List.lookup ("t") (clearFs : List (String × LtFile)) =
        some { content := ("hi").data, mtime := 5 } ∧
      render_file_m clearFs 1 (render_clear clearCtx) ("t") =
        .error .nilIndex :=
  ⟨by decide,
    render_clear_drops_container.2.1 clearFs 1 clearCtx ("t")
      { content := ("hi").data, mtime := 5 } (by decide)⟩

end LT
